import Mathlib

/-!
Shallow embedding of the MOVIE_COUNTDOWN browser-extension core
(`src/popup.js`, `src/tvmazeApi.js`), restricted to the pure data-flow of the
show repository, identity resolution, next-episode selection, staleness
checks, import handling and watched-progress operations.

Conventions of the embedding:
* JavaScript values that may be absent (`undefined`/`null`) are `Option`s;
  JS truthiness on strings (`""` is falsy) is made explicit where the source
  relies on it.
* Machine time (`Date.now()`) and timestamp parsing (`Date.parse`) are passed
  in explicitly: `now : Int` (milliseconds) and `parse : String → Option Int`
  (`none` models `NaN`).
* The asynchronous storage tiers are modelled as explicit state:
  `chrome.storage.local` is a function from keys to optionally-stored show
  lists, `chrome.storage.sync` likewise for legacy compact records, and the
  Supabase remote tier is an input (`RemoteFetch`, the outcome of
  `fetchSupabaseShows`) plus an output log of `upsertSupabaseShows` payloads.
* `toLowerCase` is modelled per-character on ASCII (`Char.toLower`), which
  agrees with JS on all ASCII input; `trim` and `split(/\s+/)` likewise use
  ASCII whitespace.
* IEEE double arithmetic (relevance scores, rating averages) is modelled as
  exact rational arithmetic; it influences only ranking order, never the
  error-handling control flow the claims are about.
-/

/-- A JavaScript show id: the source stores either a number or a string and
compares via `String(id)` or `===`. -/
inductive JsId where
  | num (n : Int)
  | str (s : String)
deriving DecidableEq, Repr

/-- Model of `String(id)` on a show id. -/
def stringOfId : JsId → String
  | .num n => toString n
  | .str s => s

/-- JS truthiness for an optional string (`undefined`, `null` and `""` are
falsy). -/
def truthyStr : Option String → Bool
  | none => false
  | some s => s ≠ ""

/-- Model of `x || d` for an optional string `x` (JS: falsy `x`, including `""`,
yields `d`). -/
def strOr (x : Option String) (d : String) : String :=
  match x with
  | none => d
  | some s => if s = "" then d else s

/-- JS truthiness of the `id` field checked by `processImport`
(`!show.id`): absent/null, `0` and `""` are falsy. -/
def truthyId : Option JsId → Bool
  | none => false
  | some (.num n) => n ≠ 0
  | some (.str s) => s ≠ ""

/-- The `nextEpisode` value `{season, number, airstamp}` as produced by
`computeNextEpisode` (src/tvmazeApi.js). -/
structure NextEp where
  season : Int
  number : Int
  airstamp : String
deriving DecidableEq, Repr

/-- A tracked watchlist entry (the TrackedShow record of src/popup.js).
Fields that the source reads optionally are `Option`s. -/
structure TrackedShow where
  id : JsId
  name : String
  contentType : String
  image : Option String
  genres : List String
  status : String
  summary : String
  nextEpisode : Option NextEp
  watched : Bool
  watchedAt : Option String
  priority : Bool
  needsRefresh : Bool
  allEpisodesLastFetchedAt : Option String
  watchedEpisode : Option Int
deriving DecidableEq, Repr

/-- A user record as stored under `currentUser` (src/popup.js).
Only the key-bearing fields and `source` matter to the embedded logic. -/
structure UserIdentity where
  name : String
  email : Option String
  googleId : Option String
  userId : Option String
  source : String
deriving DecidableEq, Repr

/-- Character action of `sanitizeUserKeyPart`: it acts per character after `toLowerCase`:
characters in `[a-z0-9]` are kept, everything else becomes `_`
(the regex `/[^a-z0-9]/g`). -/
def sanitizeChar (c : Char) : Char :=
  if ('a' ≤ c ∧ c ≤ 'z') ∨ ('0' ≤ c ∧ c ≤ '9') then c else '_'

/-- Model of `sanitizeUserKeyPart(value)` (src/popup.js line 263):
`String(value).toLowerCase().replace(/[^a-z0-9]/g, "_")`. -/
def sanitizeUserKeyPart (value : String) : String :=
  String.mk (value.data.map (fun c => sanitizeChar c.toLower))

/-- Argument of `getUserShowsKey`: either a plain string or a user record
(the source sniffs `typeof userOrEmail === "string"`). -/
inductive UserOrEmail where
  | str (s : String)
  | user (u : UserIdentity)
deriving DecidableEq, Repr

/-- Model of `getUserShowsKey(userOrEmail)` (src/popup.js line 302): `null` on falsy
input, else the first truthy field in priority order
string > email > googleId > userId, sanitized and prefixed. -/
def getUserShowsKey : Option UserOrEmail → Option String
  | none => none
  | some (.str s) =>
      if s = "" then none else some ("shows_" ++ sanitizeUserKeyPart s)
  | some (.user u) =>
      if truthyStr u.email then
        some ("shows_" ++ sanitizeUserKeyPart ((u.email).getD ""))
      else if truthyStr u.googleId then
        some ("shows_google_" ++ sanitizeUserKeyPart ((u.googleId).getD ""))
      else if truthyStr u.userId then
        some ("shows_user_" ++ sanitizeUserKeyPart ((u.userId).getD ""))
      else none

/-- The constant `TWO_HOURS_MS` (src/tvmazeApi.js line 3): `2 * 60 * 60 * 1000`. -/
def TWO_HOURS_MS : Int := 2 * 60 * 60 * 1000

/-- An episode as consumed by `computeNextEpisode` (src/tvmazeApi.js):
`airstamp` may be absent, and an arbitrary string may fail to parse. -/
structure Episode where
  season : Int
  number : Int
  airstamp : Option String
deriving DecidableEq, Repr

/-- The loop body of `computeNextEpisode` (src/tvmazeApi.js lines 328-339),
with the running best `next` made explicit.  An episode is skipped when its
`airstamp` is falsy (absent or `""`) or unparsable; otherwise it replaces
`next` when its air time is strictly after `now` and strictly before the
current best (`airTime > now && (!next || airTime < Date.parse(next.airstamp))`;
a `NaN` comparison is `false` in JS, hence the `none => false` branch). -/
def computeNextEpisodeGo (parse : String → Option Int) (now : Int) :
    List Episode → Option NextEp → Option NextEp
  | [], next => next
  | ep :: rest, next =>
    match ep.airstamp with
    | none => computeNextEpisodeGo parse now rest next
    | some s =>
      if s = "" then computeNextEpisodeGo parse now rest next
      else
        match parse s with
        | none => computeNextEpisodeGo parse now rest next
        | some airTime =>
          let better : Bool :=
            match next with
            | none => true
            | some n =>
              match parse n.airstamp with
              | none => false
              | some t => airTime < t
          if airTime > now ∧ better then
            computeNextEpisodeGo parse now rest (some ⟨ep.season, ep.number, s⟩)
          else
            computeNextEpisodeGo parse now rest next

/-- Model of `computeNextEpisode(episodes)` (src/tvmazeApi.js lines 324-342). -/
def computeNextEpisode (parse : String → Option Int) (now : Int)
    (episodes : List Episode) : Option NextEp :=
  computeNextEpisodeGo parse now episodes none

/-- Model of `isFetchStale(lastFetchedAtIso)` (src/tvmazeApi.js lines 344-349):
true when the timestamp is falsy, unparsable, or more than `TWO_HOURS_MS`
before `now`. -/
def isFetchStale (parse : String → Option Int) (now : Int)
    (lastFetchedAtIso : Option String) : Bool :=
  match lastFetchedAtIso with
  | none => true
  | some s =>
    if s = "" then true
    else
      match parse s with
      | none => true
      | some last => now - last > TWO_HOURS_MS

/-- A row of the Supabase `user_shows` table as returned by
`fetchSupabaseShows` (columns selected at src/popup.js line 205). -/
structure SupaRow where
  show_id : String
  name_short : Option String
  content_type : Option String
  watched : Bool
  priority : Bool
deriving DecidableEq, Repr

/-- A compact sync record: either the new compressed tuple
`[id, name, typeCode, watched, priority]` or the legacy object
`{id, n, t, w, p}` (both shapes handled at src/popup.js lines 439-472).
Tuple positions may be absent in legacy data, hence the `Option`s; `watched`
and `priority` of the tuple shape are compared against the number `1` with
`===`. -/
inductive Compact where
  | tuple (id : JsId) (name : Option String) (typeCode : Option String)
      (watched : Option Int) (priority : Option Int)
  | obj (id : JsId) (n : Option String) (t : Option String)
      (w : Option Bool) (p : Option Bool)
deriving DecidableEq, Repr

/-- Model of `Array.isArray(item) ? String(item[0]) : String(item.id)`
(src/popup.js line 430). -/
def compactIdStr : Compact → String
  | .tuple id _ _ _ _ => stringOfId id
  | .obj id _ _ _ _ => stringOfId id

/-- Model of `mapSupabaseRowsToMinimal(rows)` (src/popup.js lines 184-195). -/
def mapSupabaseRowsToMinimal (rows : List SupaRow) : List Compact :=
  rows.map fun row =>
    let typeCode :=
      if row.content_type = some "movies" then "m"
      else if row.content_type = some "anime" then "a"
      else "t"
    .tuple (.str row.show_id) (some (strOr row.name_short "Loading..."))
      (some typeCode) (some (if row.watched then 1 else 0))
      (some (if row.priority then 1 else 0))

/-- One rebuilt placeholder show (src/popup.js lines 439-471): both compact
shapes yield a `TrackedShow` with `image = null`, `genres = []`,
`status = "Unknown"`, `nextEpisode = null` and `needsRefresh = true`, the
remaining fields decoded from the compact record. -/
def rebuildShow : Compact → TrackedShow
  | .tuple id name typeCode watched priority =>
    { id := id
      name := strOr name "Loading..."
      contentType :=
        if typeCode = some "m" then "movies"
        else if typeCode = some "a" then "anime" else "tv"
      image := none
      genres := []
      status := "Unknown"
      summary := ""
      nextEpisode := none
      watched := watched = some 1
      watchedAt := none
      priority := priority = some 1
      needsRefresh := true
      allEpisodesLastFetchedAt := none
      watchedEpisode := none }
  | .obj id n t w p =>
    { id := id
      name := strOr n "Loading..."
      contentType := strOr t "tv"
      image := none
      genres := []
      status := "Unknown"
      summary := ""
      nextEpisode := none
      watched := w.getD false
      watchedAt := none
      priority := p.getD false
      needsRefresh := true
      allEpisodesLastFetchedAt := none
      watchedEpisode := none }

/-- The `chrome.storage.local` tier, restricted to show-list keys: a key is
either unset or holds a stored list (`Array.isArray` failing is modelled as
unset). -/
abbrev LocalStore := String → Option (List TrackedShow)

/-- The legacy `chrome.storage.sync` tier holding compact-record lists under
`<userKey>_ids`. -/
abbrev SyncStore := String → Option (List Compact)

/-- Model of a `chrome.storage.local.set` write of one show-list key. -/
def setStore (st : LocalStore) (key : String) (v : List TrackedShow) :
    LocalStore :=
  fun k => if k = key then some v else st k

/-- Model of `isSupabaseConfigured()` (src/popup.js line 91): both constants are
non-empty literals in the source, so this is `true`. -/
def isSupabaseConfigured : Bool := true

/-- Model of `isSupabaseUser(user)` (src/popup.js line 95):
`user.source === "supabase" && user.userId` (truthy). -/
def isSupabaseUser (user : UserIdentity) : Bool :=
  user.source = "supabase" && truthyStr user.userId

/-- Outcome of `fetchSupabaseShows` (src/popup.js line 197): an `{rows,
error}` pair with either a non-null error or the row list. -/
inductive RemoteFetch where
  | err (msg : String)
  | ok (rows : List SupaRow)
deriving DecidableEq, Repr

/-- Result of a `getUserShows` run: the returned list, the updated local
tier, and the list payloads passed to `upsertSupabaseShows` (in call
order). -/
structure GetShowsResult where
  result : List TrackedShow
  store : LocalStore
  upserts : List (List TrackedShow)

/-- Remote-consultation stage of `getUserShows` (src/popup.js lines
400-423): computes the `syncedIds` compact list and the seed-push upsert
payloads.  Consulted only for Supabase users; on a fetch error it yields no
synced ids; when remote is empty and local is not, the local list is pushed
(seed); when remote has rows they become the compact membership list; when
both are empty the legacy `<userKey>_ids` sync entry is consulted. -/
def getUserShowsFetch (user : UserIdentity) (userKey : String)
    (localShows : List TrackedShow) (remote : RemoteFetch)
    (legacy : SyncStore) : List Compact × List (List TrackedShow) :=
  if isSupabaseUser user && isSupabaseConfigured then
    match remote with
    | .err _ => ([], [])
    | .ok rows =>
      if rows.isEmpty && !localShows.isEmpty then ([], [localShows])
      else if !rows.isEmpty then (mapSupabaseRowsToMinimal rows, [])
      else
        match legacy (userKey ++ "_ids") with
        | some l => if !l.isEmpty then (l, []) else ([], [])
        | none => ([], [])
  else ([], [])

/-- Reconciliation stage of `getUserShows` (src/popup.js lines 426-535):
when compact sync records exist, the ones whose stringified id is missing
from the local list are rebuilt as placeholders, appended after the local
shows, persisted, and (for Supabase users) upserted back; otherwise the
local list is returned unchanged. -/
def getUserShowsMerge (user : UserIdentity) (userKey : String)
    (localShows : List TrackedShow) (st : LocalStore)
    (syncedIds : List Compact) (upserts0 : List (List TrackedShow)) :
    GetShowsResult :=
  if !syncedIds.isEmpty then
    let localShowIds := localShows.map fun s => stringOfId s.id
    let missingIds :=
      syncedIds.filter fun item => !(localShowIds.contains (compactIdStr item))
    if !missingIds.isEmpty then
      let rebuiltShows := missingIds.map rebuildShow
      let merged := localShows ++ rebuiltShows
      let ups :=
        if isSupabaseUser user && isSupabaseConfigured then
          upserts0 ++ [merged]
        else upserts0
      ⟨merged, setStore st userKey merged, ups⟩
    else if localShows.isEmpty && !syncedIds.isEmpty then
      let rebuiltShows := syncedIds.map rebuildShow
      let ups :=
        if isSupabaseUser user && isSupabaseConfigured then
          upserts0 ++ [rebuiltShows]
        else upserts0
      ⟨rebuiltShows, setStore st userKey rebuiltShows, ups⟩
    else ⟨localShows, st, upserts0⟩
  else ⟨localShows, st, upserts0⟩

/-- Model of `getUserShows(specificUser)` (src/popup.js lines 379-540) as a pure
state transformer.  The identity is resolved through `getUserShowsKey`
(`ensureUserStorageKey` returns exactly this key whenever the user already
carries a key-bearing field; its healing path, which fabricates a fresh
random `userId` for keyless users, is outside this model — a keyless user
here yields the empty result, matching the source's `if (!userKey) return
[]`).  The Supabase fetch outcome is the `remote` input, consulted only for
Supabase users; `legacy` is the `chrome.storage.sync` tier consulted for
`<userKey>_ids` when both remote and local are empty. -/
def getUserShows (user : UserIdentity) (st : LocalStore)
    (remote : RemoteFetch) (legacy : SyncStore) : GetShowsResult :=
  match getUserShowsKey (some (.user user)) with
  | none => ⟨[], st, []⟩
  | some userKey =>
    let localShows := (st userKey).getD []
    let fetched := getUserShowsFetch user userKey localShows remote legacy
    getUserShowsMerge user userKey localShows st fetched.1 fetched.2

/-- Result of a `saveUserShows` run: the updated local tier and the list
payloads passed to `upsertSupabaseShows`. -/
structure SaveShowsResult where
  store : LocalStore
  upserts : List (List TrackedShow)

/-- Model of `saveUserShows(shows, specificUser)` (src/popup.js lines 545-595): the
full list is written to the local tier under the resolved key, and for
Supabase users the same list is upserted to the remote tier (remote errors
are logged, never propagated). -/
def saveUserShows (shows : List TrackedShow) (user : UserIdentity)
    (st : LocalStore) : SaveShowsResult :=
  match getUserShowsKey (some (.user user)) with
  | none => ⟨st, []⟩
  | some userKey =>
    ⟨setStore st userKey shows,
     if isSupabaseUser user && isSupabaseConfigured then [shows] else []⟩

/-- Model of `updateWatchedProgress(showId, delta)` (src/popup.js lines 1375-1429),
restricted to its list transformation: the first show with `s.id === showId`
gets `watchedEpisode = max 0 ((watchedEpisode || 0) + delta)`; the updated
list is what `saveUserShows` persists.  When no show matches, the list is
unchanged (the source then skips the save, which persists the same list). -/
def updateWatchedProgress : List TrackedShow → JsId → Int → List TrackedShow
  | [], _, _ => []
  | s :: rest, showId, delta =>
    if s.id = showId then
      let current := s.watchedEpisode.getD 0 + delta
      let current := if current < 0 then 0 else current
      { s with watchedEpisode := some current } :: rest
    else
      s :: updateWatchedProgress rest showId delta

/-- A sequence of `updateWatchedProgress` calls applied in order. -/
def applyProgressUpdates (shows : List TrackedShow)
    (updates : List (JsId × Int)) : List TrackedShow :=
  updates.foldl (fun acc u => updateWatchedProgress acc u.1 u.2) shows

/-- An entry of an import file before validation (`processImport`,
src/popup.js lines 829-851): every field may be absent.  The source's spread
`{...show, ...}` also passes through fields outside this record (e.g.
`malId`); those are not read by any embedded operation. -/
structure ImportEntry where
  id : Option JsId
  name : Option String
  contentType : Option String
  image : Option String
  genres : Option (List String)
  status : Option String
  summary : Option String
  nextEpisode : Option NextEp
  watched : Option Bool
  watchedAt : Option String
  priority : Option Bool
  allEpisodesLastFetchedAt : Option String
  watchedEpisode : Option Int
deriving DecidableEq, Repr

/-- The per-entry normalization of `processImport` (src/popup.js lines
836-851), applied to entries that passed the id check: coerce the id to a
string, fill defaults, and set `needsRefresh` iff episode data is missing or
stale. -/
def importConvert (parse : String → Option Int) (now : Int)
    (e : ImportEntry) : TrackedShow :=
  { id := .str (stringOfId ((e.id).getD (.str "")))
    name := strOr e.name "Unknown Show"
    contentType := strOr e.contentType "tv"
    image := e.image
    genres := (e.genres).getD []
    status := strOr e.status "Unknown"
    summary := strOr e.summary ""
    nextEpisode := e.nextEpisode
    watched := (e.watched).getD false
    watchedAt := e.watchedAt
    priority := (e.priority).getD false
    needsRefresh :=
      e.nextEpisode.isNone || !truthyStr e.allEpisodesLastFetchedAt
        || isFetchStale parse now e.allEpisodesLastFetchedAt
    allEpisodesLastFetchedAt := e.allEpisodesLastFetchedAt
    watchedEpisode := e.watchedEpisode }

/-- The `validShows` list of `processImport` (src/popup.js lines 829-851):
entries with a falsy `id` are dropped, the rest normalized. -/
def importValidShows (parse : String → Option Int) (now : Int)
    (pending : List ImportEntry) : List TrackedShow :=
  (pending.filter fun e => truthyId e.id).map (importConvert parse now)

/-- The list-level core of `processImport(merge)` (src/popup.js lines
808-874): `none` models the rejection paths (no valid shows; the source then
saves nothing), otherwise the list handed to `saveUserShows`.  With
`merge = true` the existing list is kept and only imported shows with new
stringified ids are appended; with `merge = false` the validated import
replaces the existing list. -/
def processImport (parse : String → Option Int) (now : Int)
    (pending : List ImportEntry) (existingShows : List TrackedShow)
    (merge : Bool) : Option (List TrackedShow) :=
  let validShows := importValidShows parse now pending
  if validShows.isEmpty then none
  else if merge then
    let existingIds := existingShows.map fun s => stringOfId s.id
    let newShows :=
      validShows.filter fun s => !(existingIds.contains (stringOfId s.id))
    some (existingShows ++ newShows)
  else some validShows

/-- The shape of a parsed import file as classified by `handleFileImport`
(src/popup.js lines 942-954): a bare array (legacy) or an object whose
`shows` property may or may not be an array. -/
inductive ImportFile where
  | arr (shows : List ImportEntry)
  | obj (shows : Option (List ImportEntry))
deriving DecidableEq, Repr

/-- The shows-extraction step of `handleFileImport` (src/popup.js lines
942-954): a bare array is accepted directly, an object is accepted when its
`shows` property is an array; everything else is rejected (`none`). -/
def extractImportShows : ImportFile → Option (List ImportEntry)
  | .arr shows => some shows
  | .obj (some shows) => some shows
  | .obj none => none

/-- Model of `migratePrevUserToNewUser(newUser)` (src/popup.js lines 1446-1483) as a
pure state transformer over the local tier; the previous user is the stored
`currentUser` at call time, and each inner `getUserShows` consults its own
remote-fetch outcome.  Returns the final local tier and all
`upsertSupabaseShows` payloads issued along the way. -/
def migratePrevUserToNewUser (previousUser : Option UserIdentity)
    (newUser : Option UserIdentity) (st : LocalStore)
    (remotePrev remoteNew : RemoteFetch) (legacy : SyncStore) :
    LocalStore × List (List TrackedShow) :=
  match previousUser, newUser with
  | some prev, some nu =>
    let prevKey := getUserShowsKey (some (.user prev))
    let newKey := getUserShowsKey (some (.user nu))
    if prevKey = none ∨ prevKey = newKey then (st, [])
    else if truthyStr prev.email then (st, [])
    else
      let r1 := getUserShows prev st remotePrev legacy
      let previousShows := r1.result
      if previousShows.isEmpty then (r1.store, r1.upserts)
      else
        let r2 := getUserShows nu r1.store remoteNew legacy
        let newShows := r2.result
        let existingIds := newShows.map fun s => stringOfId s.id
        let showsToAdd :=
          previousShows.filter fun s =>
            !(existingIds.contains (stringOfId s.id))
        if showsToAdd.isEmpty then (r2.store, r1.upserts ++ r2.upserts)
        else
          let merged := newShows ++ showsToAdd
          let r3 := saveUserShows merged nu r2.store
          (r3.store, r1.upserts ++ r2.upserts ++ r3.upserts)
  | _, _ => (st, [])

/-- Empty local tier. -/
def emptyLocalStore : LocalStore := fun _ => none

/-- Empty legacy sync tier. -/
def emptySyncStore : SyncStore := fun _ => none

/-- The local tier's view used by `getUserShows` before any remote
reconciliation: the list stored under the user's resolved key, `[]` when the
key does not resolve or nothing is stored. -/
def getLocalShows (user : UserIdentity) (st : LocalStore) :
    List TrackedShow :=
  match getUserShowsKey (some (.user user)) with
  | none => []
  | some k => (st k).getD []

/-- C5: `isFetchStale` returns true exactly when the last-fetched timestamp
is absent, falsy-empty or unparsable, or more than the fixed two-hour
freshness window (`TWO_HOURS_MS`) before `now`; consequently a parsable
timestamp is stale iff it is strictly older than two hours, so a fetch three
hours old is stale while one an hour old is not. -/
theorem isFetchStale_two_hour_window :
    (∀ (parse : String → Option Int) (now : Int) (x : Option String),
      isFetchStale parse now x = true ↔
        x = none ∨ x = some "" ∨ (∃ s, x = some s ∧ parse s = none) ∨
        (∃ s t, x = some s ∧ parse s = some t ∧ now - t > TWO_HOURS_MS)) ∧
    (∀ (parse : String → Option Int) (now t : Int) (s : String),
      s ≠ "" → parse s = some t →
      (isFetchStale parse now (some s) = true ↔ now - t > TWO_HOURS_MS)) := by
  constructor
  · intro parse now x
    cases x with
    | none => simp [isFetchStale]
    | some s =>
      by_cases hs : s = ""
      · subst hs; simp [isFetchStale]
      · cases hp : parse s with
        | none => simp [isFetchStale, hs, hp]
        | some t => simp [isFetchStale, hs, hp]
  · intro parse now t s hs hp
    simp [isFetchStale, hs, hp]

/-- Fixed parse oracle for staleness instances: `"m3h"` parses to three
hours before the epoch, `"m1h"` to one hour before. -/
def parseFix : String → Option Int
  | "m3h" => some (-10800000)
  | "m1h" => some (-3600000)
  | _ => none

/-- Witness for C5: at `now = 0`, a timestamp three hours old is stale and a
timestamp one hour old is not. -/
theorem isFetchStale_two_hour_window_witness :
    isFetchStale parseFix 0 (some "m3h") = true ∧
    isFetchStale parseFix 0 (some "m1h") = false := by
  constructor
  · exact (isFetchStale_two_hour_window.2 parseFix 0 (-10800000) "m3h"
      (by decide) rfl).2 (by decide)
  · have h := isFetchStale_two_hour_window.2 parseFix 0 (-3600000) "m1h"
      (by decide) rfl
    exact Bool.eq_false_iff.mpr (fun hh => absurd (h.mp hh) (by decide))

/-- C6: storage-key derivation is a pure function of the key-bearing fields
(same fields give the same key), it takes the first truthy field in priority
order string override > email > googleId > userId, sanitizes it by
lowercasing and mapping every character outside `[a-z0-9]` to `_`, and it
returns null exactly when no usable field is present. -/
theorem getUserShowsKey_deterministic_priority :
    (∀ u v : UserIdentity, u.email = v.email → u.googleId = v.googleId →
      u.userId = v.userId →
      getUserShowsKey (some (.user u)) = getUserShowsKey (some (.user v))) ∧
    (∀ s : String, s ≠ "" →
      getUserShowsKey (some (.str s)) =
        some ("shows_" ++ sanitizeUserKeyPart s)) ∧
    (∀ (u : UserIdentity) (e : String), u.email = some e → e ≠ "" →
      getUserShowsKey (some (.user u)) =
        some ("shows_" ++ sanitizeUserKeyPart e)) ∧
    (∀ (u : UserIdentity) (g : String), truthyStr u.email = false →
      u.googleId = some g → g ≠ "" →
      getUserShowsKey (some (.user u)) =
        some ("shows_google_" ++ sanitizeUserKeyPart g)) ∧
    (∀ (u : UserIdentity) (i : String), truthyStr u.email = false →
      truthyStr u.googleId = false → u.userId = some i → i ≠ "" →
      getUserShowsKey (some (.user u)) =
        some ("shows_user_" ++ sanitizeUserKeyPart i)) ∧
    (∀ u : UserIdentity,
      getUserShowsKey (some (.user u)) = none ↔
        truthyStr u.email = false ∧ truthyStr u.googleId = false ∧
          truthyStr u.userId = false) ∧
    (∀ v : String,
      (sanitizeUserKeyPart v).data =
        v.data.map (fun c => sanitizeChar c.toLower)) ∧
    (∀ v : String, ∀ c ∈ (sanitizeUserKeyPart v).data,
      ('a' ≤ c ∧ c ≤ 'z') ∨ ('0' ≤ c ∧ c ≤ '9') ∨ c = '_') := by
  refine ⟨?_, ?_, ?_, ?_, ?_, ?_, ?_, ?_⟩
  · intro u v he hg hi
    simp only [getUserShowsKey, he, hg, hi]
  · intro s hs
    simp [getUserShowsKey, hs]
  · intro u e he hne
    have ht : truthyStr (some e) = true := by simp [truthyStr, hne]
    simp [getUserShowsKey, he, ht]
  · intro u g hef hg hne
    have ht : truthyStr (some g) = true := by simp [truthyStr, hne]
    simp [getUserShowsKey, hef, hg, ht]
  · intro u i hef hgf hi hne
    have ht : truthyStr (some i) = true := by simp [truthyStr, hne]
    simp [getUserShowsKey, hef, hgf, hi, ht]
  · intro u
    cases he : truthyStr u.email with
    | true => simp [getUserShowsKey, he]
    | false =>
      cases hg : truthyStr u.googleId with
      | true => simp [getUserShowsKey, he, hg]
      | false =>
        cases hi : truthyStr u.userId with
        | true => simp [getUserShowsKey, he, hg, hi]
        | false => simp [getUserShowsKey, he, hg, hi]
  · intro v
    rfl
  · intro v c hc
    have : (sanitizeUserKeyPart v).data =
        v.data.map (fun c => sanitizeChar c.toLower) := rfl
    rw [this] at hc
    obtain ⟨c', _, rfl⟩ := List.mem_map.mp hc
    unfold sanitizeChar
    by_cases h : ('a' ≤ c'.toLower ∧ c'.toLower ≤ 'z') ∨
        ('0' ≤ c'.toLower ∧ c'.toLower ≤ '9')
    · rw [if_pos h]
      rcases h with h | h
      · exact Or.inl h
      · exact Or.inr (Or.inl h)
    · rw [if_neg h]
      exact Or.inr (Or.inr rfl)

/-- Witness for C6: two identities with the same email but different
cosmetic fields resolve to the same key, concretely
`shows_a_b_x` for email `"A b@X"`. -/
theorem getUserShowsKey_deterministic_priority_witness :
    getUserShowsKey (some (.user ⟨"Alice", some "A b@X", none, none, "simple"⟩)) =
      getUserShowsKey (some (.user ⟨"Bob", some "A b@X", none, none, "supabase"⟩)) ∧
    getUserShowsKey (some (.user ⟨"Alice", some "A b@X", none, none, "simple"⟩)) =
      some "shows_a_b_x" := by
  constructor
  · exact getUserShowsKey_deterministic_priority.1
      ⟨"Alice", some "A b@X", none, none, "simple"⟩
      ⟨"Bob", some "A b@X", none, none, "supabase"⟩ rfl rfl rfl
  · have h := getUserShowsKey_deterministic_priority.2.2.1
      ⟨"Alice", some "A b@X", none, none, "simple"⟩ "A b@X" rfl (by decide)
    rw [h]
    rfl

/-- C8: when the remote fetch reports an error, `getUserShows` returns the
local tier unchanged — the local store is not modified and nothing is
upserted to the remote tier (the source logs the error and falls through to
`return localShows`; its surrounding try/catch returns `[]` instead of
propagating any exception, which the total model reflects). -/
theorem getUserShows_remote_error_fail_soft :
    ∀ (user : UserIdentity) (st : LocalStore) (legacy : SyncStore)
      (e : String),
      (getUserShows user st (.err e) legacy).result = getLocalShows user st ∧
      (getUserShows user st (.err e) legacy).store = st ∧
      (getUserShows user st (.err e) legacy).upserts = [] := by
  intro user st legacy e
  cases hk : getUserShowsKey (some (.user user)) with
  | none => simp [getUserShows, getLocalShows, hk]
  | some k =>
    cases hs : (isSupabaseUser user && isSupabaseConfigured) with
    | false =>
      simp [getUserShows, getUserShowsFetch, getUserShowsMerge,
        getLocalShows, hk, hs]
    | true =>
      simp [getUserShows, getUserShowsFetch, getUserShowsMerge,
        getLocalShows, hk, hs]

/-- C3: for an identity that is not remotely synced, `saveUserShows(L)`
stores exactly `L` in the local tier with no remote upsert, and the
subsequent `getUserShows()` under the same identity returns exactly `L`
(hence in particular a list set-equal to `L` by stringified id) without
touching the store. -/
theorem saveShows_getShows_local_round_trip :
    ∀ (user : UserIdentity) (L : List TrackedShow) (st : LocalStore)
      (remote : RemoteFetch) (legacy : SyncStore) (k : String),
      isSupabaseUser user = false →
      getUserShowsKey (some (.user user)) = some k →
      (saveUserShows L user st).store k = some L ∧
      (saveUserShows L user st).upserts = [] ∧
      (getUserShows user (saveUserShows L user st).store remote legacy).result
        = L ∧
      (getUserShows user (saveUserShows L user st).store remote legacy).store
        = (saveUserShows L user st).store := by
  intro user L st remote legacy k hsup hk
  simp [saveUserShows, getUserShows, getUserShowsFetch, getUserShowsMerge,
    hk, hsup, setStore]

/-- Concrete tracked show used by several witnesses. -/
def showX : TrackedShow :=
  ⟨.str "101", "X", "tv", none, [], "Running", "", none, false, none, false,
    false, none, none⟩

/-- Witness for C3: a guest user saving `[showX]` into an empty store and
reading back under the same identity gets `[showX]`. -/
theorem saveShows_getShows_local_round_trip_witness :
    (getUserShows ⟨"Guest", none, none, some "g1", "guest"⟩
      (saveUserShows [showX] ⟨"Guest", none, none, some "g1", "guest"⟩
        emptyLocalStore).store (.err "offline") emptySyncStore).result
    = [showX] := by
  exact (saveShows_getShows_local_round_trip
    ⟨"Guest", none, none, some "g1", "guest"⟩ [showX] emptyLocalStore
    (.err "offline") emptySyncStore "shows_user_g1" (by decide)
    (by decide)).2.2.1

/-- Every show in the output of `updateWatchedProgress` is either an
untouched input show, or the matched show with its progress clamped to
`max 0 ((watchedEpisode || 0) + delta)`. -/
lemma updateWatchedProgress_mem (shows : List TrackedShow) (showId : JsId)
    (delta : Int) :
    ∀ s ∈ updateWatchedProgress shows showId delta,
      s ∈ shows ∨ ∃ old ∈ shows, old.id = showId ∧
        s = { old with
          watchedEpisode := some (max 0 (old.watchedEpisode.getD 0 + delta)) } := by
  induction shows with
  | nil => simp [updateWatchedProgress]
  | cons a rest ih =>
    intro s hs
    by_cases h : a.id = showId
    · simp only [updateWatchedProgress, if_pos h, List.mem_cons] at hs
      rcases hs with rfl | hs
      · right
        refine ⟨a, by simp, h, ?_⟩
        have hm : (if a.watchedEpisode.getD 0 + delta < 0 then 0
            else a.watchedEpisode.getD 0 + delta) =
            max 0 (a.watchedEpisode.getD 0 + delta) := by omega
        simp [hm]
      · left; exact List.mem_cons_of_mem a hs
    · simp only [updateWatchedProgress, if_neg h, List.mem_cons] at hs
      rcases hs with rfl | hs
      · left; simp
      · rcases ih s hs with h1 | ⟨old, ho, hoid, rfl⟩
        · left; exact List.mem_cons_of_mem a h1
        · right; exact ⟨old, List.mem_cons_of_mem a ho, hoid, rfl⟩

/-- C10: `watchedEpisode` defaults to 0 and `updateWatchedProgress` clamps
the value after any delta at a minimum of 0 (the matched show's new value is
`max 0 ((watchedEpisode || 0) + delta)`), so under any sequence of progress
updates every persisted `watchedEpisode` stays non-negative. -/
theorem watchedEpisode_never_negative :
    (∀ (shows : List TrackedShow) (showId : JsId) (delta : Int),
      ∀ s ∈ updateWatchedProgress shows showId delta,
        s ∈ shows ∨ ∃ old ∈ shows, old.id = showId ∧
          s = { old with
            watchedEpisode :=
              some (max 0 (old.watchedEpisode.getD 0 + delta)) }) ∧
    (∀ (shows : List TrackedShow) (updates : List (JsId × Int)),
      (∀ s ∈ shows, 0 ≤ s.watchedEpisode.getD 0) →
      ∀ s ∈ applyProgressUpdates shows updates,
        0 ≤ s.watchedEpisode.getD 0) := by
  constructor
  · exact updateWatchedProgress_mem
  · intro shows updates
    induction updates generalizing shows with
    | nil => intro h s hs; exact h s hs
    | cons u rest ih =>
      intro h s hs
      refine ih (updateWatchedProgress shows u.1 u.2) ?_ s hs
      intro t ht
      rcases updateWatchedProgress_mem shows u.1 u.2 t ht with h1 | ⟨old, _, _, rfl⟩
      · exact h t h1
      · simp [le_max_left]

/-- Witness for C10: applying delta `-5` to a show with no recorded
progress leaves the (clamped) progress non-negative. -/
theorem watchedEpisode_never_negative_witness :
    0 ≤ ({ showX with watchedEpisode := some 0 } : TrackedShow).watchedEpisode.getD 0 := by
  exact watchedEpisode_never_negative.2 [showX] [(.str "101", -5)] (by decide)
    { showX with watchedEpisode := some 0 } (by decide)

/-- C1: compact-sync rebuild in `getUserShows`.  When the remote tier
returns rows, every remote show id missing from the local tier (by
stringified id) is synthesized as a placeholder via `rebuildShow` with
`needsRefresh = true`, `genres = []`, `status = "Unknown"`, `image = null`
and id/name/content-type/watched/priority decoded from the compact record;
the placeholders are appended after the existing local shows, the merged
list is persisted to the local tier, upserted back to the remote tier and
returned.  When no remote id is missing, nothing is rebuilt, persisted or
upserted. -/
theorem getUserShows_compact_sync_rebuild :
    (∀ (user : UserIdentity) (st : LocalStore) (legacy : SyncStore)
       (rows : List SupaRow) (k : String) (L : List TrackedShow)
       (missing : List Compact) (merged : List TrackedShow),
      getUserShowsKey (some (.user user)) = some k →
      isSupabaseUser user = true →
      rows ≠ [] →
      L = (st k).getD [] →
      missing = (mapSupabaseRowsToMinimal rows).filter
        (fun c => !((L.map fun s => stringOfId s.id).contains
          (compactIdStr c))) →
      merged = L ++ missing.map rebuildShow →
      ((missing ≠ [] →
        getUserShows user st (.ok rows) legacy =
          ⟨merged, setStore st k merged, [merged]⟩) ∧
       (missing = [] →
        getUserShows user st (.ok rows) legacy = ⟨L, st, []⟩))) ∧
    (∀ c : Compact,
      (rebuildShow c).needsRefresh = true ∧ (rebuildShow c).genres = [] ∧
      (rebuildShow c).status = "Unknown" ∧ (rebuildShow c).image = none ∧
      (rebuildShow c).nextEpisode = none ∧ (rebuildShow c).summary = "") ∧
    (∀ (id : JsId) (name typeCode : Option String) (w p : Option Int),
      rebuildShow (.tuple id name typeCode w p) =
        { id := id
          name := strOr name "Loading..."
          contentType :=
            if typeCode = some "m" then "movies"
            else if typeCode = some "a" then "anime" else "tv"
          image := none
          genres := []
          status := "Unknown"
          summary := ""
          nextEpisode := none
          watched := w = some 1
          watchedAt := none
          priority := p = some 1
          needsRefresh := true
          allEpisodesLastFetchedAt := none
          watchedEpisode := none }) := by
  refine ⟨?_, ?_, ?_⟩
  · intro user st legacy rows k L missing merged hk hsup hrows hL hmissing
      hmerged
    have hcfg : (isSupabaseUser user && isSupabaseConfigured) = true := by
      simp [hsup, isSupabaseConfigured]
    have hrowsE : rows.isEmpty = false := by
      cases rows with
      | nil => exact absurd rfl hrows
      | cons a l => rfl
    have hsynced : (mapSupabaseRowsToMinimal rows).isEmpty = false := by
      cases rows with
      | nil => exact absurd rfl hrows
      | cons a l => rfl
    have hfetch : getUserShowsFetch user k ((st k).getD [])
        (.ok rows) legacy = (mapSupabaseRowsToMinimal rows, []) := by
      simp [getUserShowsFetch, hcfg, hrowsE]
    constructor
    · intro hmne
      have hmE : missing.isEmpty = false := by
        cases missing with
        | nil => exact absurd rfl hmne
        | cons a l => rfl
      subst hmerged
      simp only [getUserShows, hk, hfetch]
      rw [← hL]
      simp only [getUserShowsMerge]
      simp only [← hmissing]
      simp [hcfg, hsynced, hmE]
    · intro hm0
      have hLne : L.isEmpty = false := by
        cases hLc : L with
        | nil =>
          exfalso
          have : missing = mapSupabaseRowsToMinimal rows := by
            rw [hmissing, hLc]
            simp
          rw [hm0] at this
          rw [← this] at hsynced
          simp at hsynced
        | cons a l => rfl
      have hmE : missing.isEmpty = true := by rw [hm0]; rfl
      simp only [getUserShows, hk, hfetch]
      rw [← hL]
      simp only [getUserShowsMerge]
      simp only [← hmissing]
      simp [hcfg, hsynced, hmE, hLne]
  · intro c
    cases c <;> simp [rebuildShow]
  · intro id name typeCode w p
    rfl

/-- Concrete Supabase user for witnesses. -/
def userX : UserIdentity := ⟨"N", none, none, some "u1", "supabase"⟩

/-- Local tier holding only `showX` under `userX`'s key. -/
def stX : LocalStore :=
  fun k => if k = "shows_user_u1" then some [showX] else none

/-- Remote row matching the locally present show. -/
def rowX : SupaRow := ⟨"101", some "X", some "tv", false, false⟩

/-- Remote row absent from the local tier. -/
def rowY : SupaRow := ⟨"202", some "Y", some "movies", true, false⟩

/-- Compact record decoded from `rowY`. -/
def compactY : Compact :=
  .tuple (.str "202") (some "Y") (some "m") (some 1) (some 0)

/-- Witness for C1: remote ids [101, 202] with local [101] yields a
persisted local list [101, 202] whose rebuilt second entry has
`needsRefresh = true`. -/
theorem getUserShows_compact_sync_rebuild_witness :
    (getUserShows userX stX (.ok [rowX, rowY]) emptySyncStore).store
        "shows_user_u1" = some ([showX] ++ [rebuildShow compactY]) ∧
    (rebuildShow compactY).needsRefresh = true := by
  have h := (getUserShows_compact_sync_rebuild.1 userX stX emptySyncStore
      [rowX, rowY] "shows_user_u1" [showX] [compactY]
      ([showX] ++ [rebuildShow compactY])
      (by decide) (by decide) (by decide) (by decide) (by decide) rfl).1
      (by decide)
  constructor
  · rw [h]
    simp [setStore]
  · exact (getUserShows_compact_sync_rebuild.2.1 compactY).1

/-- The reconciliation stage writes, if anything, only under the user's own
key. -/
lemma getUserShowsMerge_store_eq (user : UserIdentity) (k : String)
    (L : List TrackedShow) (st : LocalStore) (syn : List Compact)
    (ups : List (List TrackedShow)) :
    (getUserShowsMerge user k L st syn ups).store = st ∨
    ∃ v, (getUserShowsMerge user k L st syn ups).store = setStore st k v := by
  simp only [getUserShowsMerge]
  split
  · split
    · exact Or.inr ⟨_, rfl⟩
    · split
      · exact Or.inr ⟨_, rfl⟩
      · exact Or.inl rfl
  · exact Or.inl rfl

/-- Frame property of `getUserShows`: keys other than the user's own
resolved key are left untouched in the local tier. -/
lemma getUserShows_store_frame (user : UserIdentity) (st : LocalStore)
    (remote : RemoteFetch) (legacy : SyncStore) (k' : String)
    (h : ∀ k, getUserShowsKey (some (.user user)) = some k → k' ≠ k) :
    (getUserShows user st remote legacy).store k' = st k' := by
  cases hk : getUserShowsKey (some (.user user)) with
  | none => simp [getUserShows, hk]
  | some k =>
    have hne := h k hk
    simp only [getUserShows, hk]
    rcases getUserShowsMerge_store_eq user k ((st k).getD []) st
        (getUserShowsFetch user k ((st k).getD []) remote legacy).1
        (getUserShowsFetch user k ((st k).getD []) remote legacy).2 with
      he | ⟨v, he⟩
    · rw [he]
    · rw [he]
      simp [setStore, hne]

/-- A `getUserShows` call for an identity that is not remotely synced is a
pure local read: it returns the locally stored list and changes nothing. -/
lemma getUserShows_not_supabase (user : UserIdentity) (st : LocalStore)
    (remote : RemoteFetch) (legacy : SyncStore)
    (h : isSupabaseUser user = false) :
    getUserShows user st remote legacy = ⟨getLocalShows user st, st, []⟩ := by
  cases hk : getUserShowsKey (some (.user user)) with
  | none => simp [getUserShows, getLocalShows, hk]
  | some k =>
    simp [getUserShows, getUserShowsFetch, getUserShowsMerge, getLocalShows,
      hk, h]

/-- C4: merge on sign-in.  When the previous identity has no
email-equivalent credential (guest/simple, hence not remotely synced), its
key resolves and differs from the new identity's key, and it has stored
shows, then exactly those previous shows whose stringified ids are not in
the new identity's list are appended after the new identity's existing
shows and persisted under the new key; already-present ids are never
appended, and the previous identity's stored list is never modified. -/
theorem migrate_merge_on_sign_in :
    ∀ (prev nu : UserIdentity) (st : LocalStore)
      (remotePrev remoteNew : RemoteFetch) (legacy : SyncStore)
      (kp kn : String) (prevShows newShows toAdd : List TrackedShow),
      truthyStr prev.email = false →
      isSupabaseUser prev = false →
      getUserShowsKey (some (.user prev)) = some kp →
      getUserShowsKey (some (.user nu)) = some kn →
      kp ≠ kn →
      prevShows = (st kp).getD [] →
      prevShows ≠ [] →
      newShows = (getUserShows nu st remoteNew legacy).result →
      toAdd = prevShows.filter
        (fun s => !((newShows.map fun t => stringOfId t.id).contains
          (stringOfId s.id))) →
      ((toAdd ≠ [] →
        (migratePrevUserToNewUser (some prev) (some nu) st remotePrev
            remoteNew legacy).1 kn = some (newShows ++ toAdd) ∧
        (migratePrevUserToNewUser (some prev) (some nu) st remotePrev
            remoteNew legacy).1 kp = st kp) ∧
       (toAdd = [] →
        (migratePrevUserToNewUser (some prev) (some nu) st remotePrev
            remoteNew legacy).1
          = (getUserShows nu st remoteNew legacy).store ∧
        (migratePrevUserToNewUser (some prev) (some nu) st remotePrev
            remoteNew legacy).1 kp = st kp) ∧
       (∀ s ∈ toAdd,
         ¬ stringOfId s.id ∈ newShows.map fun t => stringOfId t.id)) := by
  intro prev nu st remotePrev remoteNew legacy kp kn prevShows newShows toAdd
    hem hsupp hkp hkn hkpn hprev hprevne hnew htoAdd
  have hr1 : getUserShows prev st remotePrev legacy =
      ⟨prevShows, st, []⟩ := by
    rw [getUserShows_not_supabase prev st remotePrev legacy hsupp]
    simp [getLocalShows, hkp, hprev]
  have hprevE : prevShows.isEmpty = false := by
    cases prevShows with
    | nil => exact absurd rfl hprevne
    | cons a l => rfl
  have hframe : (getUserShows nu st remoteNew legacy).store kp = st kp := by
    refine getUserShows_store_frame nu st remoteNew legacy kp ?_
    intro k hk
    rw [hkn] at hk
    cases hk
    exact hkpn
  have hmig : migratePrevUserToNewUser (some prev) (some nu) st remotePrev
      remoteNew legacy =
      (if toAdd.isEmpty then
        ((getUserShows nu st remoteNew legacy).store,
          [] ++ (getUserShows nu st remoteNew legacy).upserts)
      else
        ((saveUserShows (newShows ++ toAdd) nu
            (getUserShows nu st remoteNew legacy).store).store,
          [] ++ (getUserShows nu st remoteNew legacy).upserts ++
            (saveUserShows (newShows ++ toAdd) nu
              (getUserShows nu st remoteNew legacy).store).upserts)) := by
    simp only [migratePrevUserToNewUser, hkp, hkn]
    rw [if_neg (by simp [hkpn]), if_neg (by simp [hem]), hr1]
    simp only [hprevE]
    rw [← hnew]
    simp only [← htoAdd]
    simp
  refine ⟨?_, ?_, ?_⟩
  · intro htne
    have htE : toAdd.isEmpty = false := by
      cases toAdd with
      | nil => exact absurd rfl htne
      | cons a l => rfl
    rw [hmig, if_neg (by simp [htE])]
    constructor
    · simp [saveUserShows, hkn, setStore]
    · simp only [saveUserShows, hkn]
      simp [setStore, hkpn, hframe]
  · intro ht0
    have htE : toAdd.isEmpty = true := by rw [ht0]; rfl
    rw [hmig, if_pos htE]
    exact ⟨rfl, hframe⟩
  · intro s hs
    rw [htoAdd] at hs
    have := (List.mem_filter.mp hs).2
    simpa using this

/-- Concrete shows A, B, C used by merge witnesses. -/
def showA : TrackedShow :=
  ⟨.str "1", "A", "tv", none, [], "Running", "", none, false, none, false,
    false, none, none⟩

/-- Show B. -/
def showB : TrackedShow :=
  ⟨.str "2", "B", "tv", none, [], "Running", "", none, false, none, false,
    false, none, none⟩

/-- Show C. -/
def showC : TrackedShow :=
  ⟨.str "3", "C", "tv", none, [], "Running", "", none, false, none, false,
    false, none, none⟩

/-- Guest identity for the C4 witness. -/
def guestU : UserIdentity := ⟨"Guest", none, none, some "g1", "guest"⟩

/-- Signed-in identity for the C4 witness. -/
def accountU : UserIdentity :=
  ⟨"Acc", some "acc@x.com", none, some "u9", "supabase"⟩

/-- Local tier for the C4 witness: guest has [A, B], account has [B, C]. -/
def stMerge : LocalStore := fun k =>
  if k = "shows_user_g1" then some [showA, showB]
  else if k = "shows_acc_x_com" then some [showB, showC] else none

/-- Witness for C4: guest list [A, B] signed into an account holding [B, C]
yields exactly [B, C, A] under the account's key. -/
theorem migrate_merge_on_sign_in_witness :
    (migratePrevUserToNewUser (some guestU) (some accountU) stMerge
        (.err "x") (.err "down") emptySyncStore).1 "shows_acc_x_com"
      = some [showB, showC, showA] := by
  have h := ((migrate_merge_on_sign_in guestU accountU stMerge (.err "x")
      (.err "down") emptySyncStore "shows_user_g1" "shows_acc_x_com"
      [showA, showB] [showB, showC] [showA]
      (by decide) (by decide) (by decide) (by decide) (by decide)
      (by decide) (by decide) (by decide) (by decide)).1
      (by decide)).1
  rw [h]
  rfl

/-- C7: import semantics.  A parsed import file is accepted both as the
versioned object and as a bare array; entries with a falsy id contribute
nothing; every kept entry's id is a coerced string; `needsRefresh` is set
exactly when the entry lacks `nextEpisode`, lacks a truthy
`allEpisodesLastFetchedAt`, or its fetch timestamp is stale; absent fields
get their defaults; with merge the existing list is kept and only new ids
appended, without merge the validated import replaces the list. -/
theorem import_semantics :
    (∀ l : List ImportEntry,
      extractImportShows (.arr l) = some l ∧
      extractImportShows (.obj (some l)) = some l) ∧
    (∀ (parse : String → Option Int) (now : Int)
       (pending : List ImportEntry),
      importValidShows parse now pending =
        importValidShows parse now
          (pending.filter fun e => truthyId e.id)) ∧
    (∀ (parse : String → Option Int) (now : Int)
       (pending : List ImportEntry) (s : TrackedShow),
      s ∈ importValidShows parse now pending → ∃ str, s.id = .str str) ∧
    (∀ (parse : String → Option Int) (now : Int) (e : ImportEntry),
      (importConvert parse now e).needsRefresh = true ↔
        (e.nextEpisode = none ∨
         truthyStr e.allEpisodesLastFetchedAt = false ∨
         isFetchStale parse now e.allEpisodesLastFetchedAt = true)) ∧
    (∀ (parse : String → Option Int) (now : Int) (e : ImportEntry),
      e.name = none → e.contentType = none → e.watched = none →
      e.priority = none → e.genres = none → e.status = none →
      e.summary = none →
      (importConvert parse now e).name = "Unknown Show" ∧
      (importConvert parse now e).contentType = "tv" ∧
      (importConvert parse now e).watched = false ∧
      (importConvert parse now e).priority = false ∧
      (importConvert parse now e).genres = [] ∧
      (importConvert parse now e).status = "Unknown" ∧
      (importConvert parse now e).summary = "") ∧
    (∀ (parse : String → Option Int) (now : Int)
       (pending : List ImportEntry) (existing : List TrackedShow),
      importValidShows parse now pending ≠ [] →
      processImport parse now pending existing true =
        some (existing ++
          (importValidShows parse now pending).filter
            (fun s => !((existing.map fun t => stringOfId t.id).contains
              (stringOfId s.id)))) ∧
      processImport parse now pending existing false =
        some (importValidShows parse now pending)) := by
  refine ⟨?_, ?_, ?_, ?_, ?_, ?_⟩
  · intro l
    exact ⟨rfl, rfl⟩
  · intro parse now pending
    simp [importValidShows, List.filter_filter]
  · intro parse now pending s hs
    obtain ⟨e, _, rfl⟩ := List.mem_map.mp hs
    exact ⟨_, rfl⟩
  · intro parse now e
    simp only [importConvert, Bool.or_eq_true, Option.isNone_iff_eq_none,
      Bool.not_eq_true']
    tauto
  · intro parse now e h1 h2 h3 h4 h5 h6 h7
    simp [importConvert, strOr, h1, h2, h3, h4, h5, h6, h7]
  · intro parse now pending existing hne
    have hE : (importValidShows parse now pending).isEmpty = false := by
      cases h : importValidShows parse now pending with
      | nil => exact absurd h hne
      | cons a l => rfl
    constructor
    · simp [processImport, hE]
    · simp [processImport, hE]

/-- Import entry with id 2 for the C7 witness. -/
def entryB : ImportEntry :=
  ⟨some (.str "2"), some "B", none, none, none, none, none, none, none,
    none, none, none, none⟩

/-- Import entry with id 3 for the C7 witness. -/
def entryC : ImportEntry :=
  ⟨some (.str "3"), some "C", none, none, none, none, none, none, none,
    none, none, none, none⟩

/-- Witness for C7: merging file [B, C] into existing [A, B] yields
[A, B, C]; replacing yields [B, C] (converted entries). -/
theorem import_semantics_witness :
    processImport parseFix 0 [entryB, entryC] [showA, showB] true =
      some [showA, showB, importConvert parseFix 0 entryC] ∧
    processImport parseFix 0 [entryB, entryC] [showA, showB] false =
      some [importConvert parseFix 0 entryB, importConvert parseFix 0 entryC] := by
  have h := import_semantics.2.2.2.2.2 parseFix 0 [entryB, entryC]
    [showA, showB] (by decide)
  constructor
  · rw [h.1]
    rfl
  · rw [h.2]
    rfl

/-- An episode qualifies for next-episode selection when its airstamp
parses to a time strictly after `now`. -/
def qualifies (parse : String → Option Int) (now : Int) (ep : Episode) :
    Prop :=
  ∃ s t, ep.airstamp = some s ∧ parse s = some t ∧ now < t

lemma computeNextEpisodeGo_cons_noair (parse : String → Option Int)
    (now : Int) (ep : Episode) (rest : List Episode) (acc : Option NextEp)
    (ha : ep.airstamp = none) :
    computeNextEpisodeGo parse now (ep :: rest) acc =
      computeNextEpisodeGo parse now rest acc := by
  simp only [computeNextEpisodeGo, ha]

lemma computeNextEpisodeGo_cons_empty (parse : String → Option Int)
    (now : Int) (ep : Episode) (rest : List Episode) (acc : Option NextEp)
    (ha : ep.airstamp = some "") :
    computeNextEpisodeGo parse now (ep :: rest) acc =
      computeNextEpisodeGo parse now rest acc := by
  simp only [computeNextEpisodeGo, ha]
  rw [if_pos trivial]

lemma computeNextEpisodeGo_cons_unparsable (parse : String → Option Int)
    (now : Int) (ep : Episode) (rest : List Episode) (acc : Option NextEp)
    (s : String) (ha : ep.airstamp = some s) (hs : s ≠ "")
    (hp : parse s = none) :
    computeNextEpisodeGo parse now (ep :: rest) acc =
      computeNextEpisodeGo parse now rest acc := by
  simp only [computeNextEpisodeGo, ha, hs, hp]
  simp

/-- The running-best comparison of the scan:
`!next || airTime < Date.parse(next.airstamp)` with `NaN` comparisons
false. -/
def betterBool (parse : String → Option Int) (a : Int) :
    Option NextEp → Bool
  | none => true
  | some n =>
    match parse n.airstamp with
    | none => false
    | some t => a < t

lemma computeNextEpisodeGo_cons_parsed (parse : String → Option Int)
    (now : Int) (ep : Episode) (rest : List Episode) (acc : Option NextEp)
    (s : String) (a : Int) (ha : ep.airstamp = some s) (hs : s ≠ "")
    (hp : parse s = some a) :
    computeNextEpisodeGo parse now (ep :: rest) acc =
      (if a > now ∧ betterBool parse a acc = true then
        computeNextEpisodeGo parse now rest (some ⟨ep.season, ep.number, s⟩)
      else computeNextEpisodeGo parse now rest acc) := by
  simp only [computeNextEpisodeGo, ha, hp, if_neg hs]
  cases acc with
  | none => rfl
  | some n => rfl

/-- Once a running best exists it is never dropped. -/
lemma computeNextEpisodeGo_acc_some (parse : String → Option Int)
    (now : Int) :
    ∀ (eps : List Episode) (n : NextEp),
      ∃ r, computeNextEpisodeGo parse now eps (some n) = some r := by
  intro eps
  induction eps with
  | nil => intro n; exact ⟨n, rfl⟩
  | cons ep rest ih =>
    intro n
    cases ha : ep.airstamp with
    | none => rw [computeNextEpisodeGo_cons_noair parse now ep rest _ ha]; exact ih n
    | some s =>
      by_cases hs : s = ""
      · subst hs
        rw [computeNextEpisodeGo_cons_empty parse now ep rest _ ha]
        exact ih n
      · cases hp : parse s with
        | none =>
          rw [computeNextEpisodeGo_cons_unparsable parse now ep rest _ s ha
            hs hp]
          exact ih n
        | some a =>
          rw [computeNextEpisodeGo_cons_parsed parse now ep rest _ s a ha
            hs hp]
          split
          · exact ih _
          · exact ih n

/-- An episode with a missing, empty or unparsable airstamp never
qualifies. -/
lemma not_qualifies_of_skip (parse : String → Option Int) (now : Int)
    (ep : Episode) (hE : parse "" = none) :
    (ep.airstamp = none → ¬ qualifies parse now ep) ∧
    (ep.airstamp = some "" → ¬ qualifies parse now ep) ∧
    (∀ s, ep.airstamp = some s → parse s = none →
      ¬ qualifies parse now ep) := by
  refine ⟨?_, ?_, ?_⟩
  · rintro ha ⟨s, t, hs, -, -⟩
    rw [ha] at hs
    cases hs
  · rintro ha ⟨s, t, hs, hp, -⟩
    rw [ha] at hs
    cases hs
    rw [hE] at hp
    cases hp
  · rintro s ha hpn ⟨s', t, hs, hp, -⟩
    rw [ha] at hs
    cases hs
    rw [hpn] at hp
    cases hp

/-- Characterization of the empty result: the scan returns `none` iff it
started with no best and no episode qualifies. -/
lemma computeNextEpisodeGo_eq_none_iff (parse : String → Option Int)
    (now : Int) (hE : parse "" = none) :
    ∀ (eps : List Episode) (acc : Option NextEp),
      computeNextEpisodeGo parse now eps acc = none ↔
        acc = none ∧ ∀ ep ∈ eps, ¬ qualifies parse now ep := by
  intro eps
  induction eps with
  | nil =>
    intro acc
    simp [computeNextEpisodeGo]
  | cons ep rest ih =>
    intro acc
    have hext : ∀ (P : Prop), ¬ qualifies parse now ep →
        ((acc = none ∧ ∀ e ∈ rest, ¬ qualifies parse now e) ↔
         (acc = none ∧ ∀ e ∈ ep :: rest, ¬ qualifies parse now e)) := by
      intro _ hq
      constructor
      · rintro ⟨h1, h2⟩
        refine ⟨h1, ?_⟩
        intro e he
        rcases List.mem_cons.mp he with rfl | he
        · exact hq
        · exact h2 e he
      · rintro ⟨h1, h2⟩
        exact ⟨h1, fun e he => h2 e (List.mem_cons_of_mem ep he)⟩
    cases ha : ep.airstamp with
    | none =>
      rw [computeNextEpisodeGo_cons_noair parse now ep rest _ ha, ih acc,
        hext True ((not_qualifies_of_skip parse now ep hE).1 ha)]
    | some s =>
      by_cases hs : s = ""
      · subst hs
        rw [computeNextEpisodeGo_cons_empty parse now ep rest _ ha, ih acc,
          hext True ((not_qualifies_of_skip parse now ep hE).2.1 ha)]
      · cases hp : parse s with
        | none =>
          rw [computeNextEpisodeGo_cons_unparsable parse now ep rest _ s ha
              hs hp, ih acc,
            hext True ((not_qualifies_of_skip parse now ep hE).2.2 s ha hp)]
        | some a =>
          rw [computeNextEpisodeGo_cons_parsed parse now ep rest _ s a ha
            hs hp]
          by_cases hcond : a > now ∧ betterBool parse a acc = true
          · rw [if_pos hcond]
            obtain ⟨r, hr⟩ := computeNextEpisodeGo_acc_some parse now rest
              ⟨ep.season, ep.number, s⟩
            rw [hr]
            constructor
            · intro h
              cases h
            · rintro ⟨-, hall⟩
              exact absurd ⟨s, a, ha, hp, hcond.1⟩
                (hall ep (List.mem_cons_self ep rest))
          · rw [if_neg hcond, ih acc]
            cases acc with
            | some n =>
              simp only [Option.some_ne_none, false_and]
            | none =>
              have hnq : ¬ qualifies parse now ep := by
                rintro ⟨s', t, hs', hp', hlt⟩
                rw [ha] at hs'
                cases hs'
                rw [hp] at hp'
                cases hp'
                exact hcond ⟨hlt, rfl⟩
              exact hext True hnq

/-- Specification of a successful scan: the result originates from the
initial best or from an episode of the list, its airstamp parses to a time
strictly after `now`, and that time is minimal among all qualifying
episodes and no later than the initial best. -/
lemma computeNextEpisodeGo_some_spec (parse : String → Option Int)
    (now : Int) (hE : parse "" = none) :
    ∀ (eps : List Episode) (acc : Option NextEp),
      (∀ n, acc = some n → ∃ t, parse n.airstamp = some t ∧ now < t) →
      ∀ r, computeNextEpisodeGo parse now eps acc = some r →
        (acc = some r ∨ ∃ ep ∈ eps, ep.airstamp = some r.airstamp ∧
          ep.season = r.season ∧ ep.number = r.number) ∧
        ∃ t, parse r.airstamp = some t ∧ now < t ∧
          (∀ ep ∈ eps, ∀ s u, ep.airstamp = some s → parse s = some u →
            now < u → t ≤ u) ∧
          (∀ n tn, acc = some n → parse n.airstamp = some tn → t ≤ tn) := by
  intro eps
  induction eps with
  | nil =>
    intro acc hacc r hr
    simp only [computeNextEpisodeGo] at hr
    subst hr
    obtain ⟨t, hpt, hlt⟩ := hacc r rfl
    refine ⟨Or.inl rfl, t, hpt, hlt, by simp, ?_⟩
    intro n tn hn htn
    injection hn with hn'
    subst hn'
    rw [hpt] at htn
    injection htn with htn'
    omega
  | cons ep rest ih =>
    intro acc hacc r hr
    cases ha : ep.airstamp with
    | none =>
      rw [computeNextEpisodeGo_cons_noair parse now ep rest _ ha] at hr
      obtain ⟨horig, t, hpt, hlt, hmin, haccmin⟩ := ih acc hacc r hr
      refine ⟨?_, t, hpt, hlt, ?_, haccmin⟩
      · rcases horig with h | ⟨e, he, h1, h2, h3⟩
        · exact Or.inl h
        · exact Or.inr ⟨e, List.mem_cons_of_mem ep he, h1, h2, h3⟩
      · intro e he s' u hs' hu hltu
        rcases List.mem_cons.mp he with rfl | he
        · rw [ha] at hs'
          cases hs'
        · exact hmin e he s' u hs' hu hltu
    | some s =>
      by_cases hs : s = ""
      · subst hs
        rw [computeNextEpisodeGo_cons_empty parse now ep rest _ ha] at hr
        obtain ⟨horig, t, hpt, hlt, hmin, haccmin⟩ := ih acc hacc r hr
        refine ⟨?_, t, hpt, hlt, ?_, haccmin⟩
        · rcases horig with h | ⟨e, he, h1, h2, h3⟩
          · exact Or.inl h
          · exact Or.inr ⟨e, List.mem_cons_of_mem ep he, h1, h2, h3⟩
        · intro e he s' u hs' hu hltu
          rcases List.mem_cons.mp he with rfl | he
          · rw [ha] at hs'
            injection hs' with h1
            subst h1
            rw [hE] at hu
            cases hu
          · exact hmin e he s' u hs' hu hltu
      · cases hp : parse s with
        | none =>
          rw [computeNextEpisodeGo_cons_unparsable parse now ep rest _ s ha
            hs hp] at hr
          obtain ⟨horig, t, hpt, hlt, hmin, haccmin⟩ := ih acc hacc r hr
          refine ⟨?_, t, hpt, hlt, ?_, haccmin⟩
          · rcases horig with h | ⟨e, he, h1, h2, h3⟩
            · exact Or.inl h
            · exact Or.inr ⟨e, List.mem_cons_of_mem ep he, h1, h2, h3⟩
          · intro e he s' u hs' hu hltu
            rcases List.mem_cons.mp he with rfl | he
            · rw [ha] at hs'
              injection hs' with h1
              subst h1
              rw [hp] at hu
              cases hu
            · exact hmin e he s' u hs' hu hltu
        | some a =>
          rw [computeNextEpisodeGo_cons_parsed parse now ep rest _ s a ha
            hs hp] at hr
          by_cases hcond : a > now ∧ betterBool parse a acc = true
          · rw [if_pos hcond] at hr
            have hacc' : ∀ n,
                (some (⟨ep.season, ep.number, s⟩ : NextEp)) = some n →
                ∃ t, parse n.airstamp = some t ∧ now < t := by
              intro n hn
              injection hn with hn'
              subst hn'
              exact ⟨a, hp, hcond.1⟩
            obtain ⟨horig, t, hpt, hlt, hmin, haccmin'⟩ := ih _ hacc' r hr
            have htle : t ≤ a :=
              haccmin' ⟨ep.season, ep.number, s⟩ a rfl hp
            refine ⟨?_, t, hpt, hlt, ?_, ?_⟩
            · rcases horig with h | ⟨e, he, h1, h2, h3⟩
              · injection h with h'
                subst h'
                exact Or.inr ⟨ep, List.mem_cons_self ep rest, ha, rfl, rfl⟩
              · exact Or.inr ⟨e, List.mem_cons_of_mem ep he, h1, h2, h3⟩
            · intro e he s' u hs' hu hltu
              rcases List.mem_cons.mp he with rfl | he
              · rw [ha] at hs'
                injection hs' with h1
                subst h1
                rw [hp] at hu
                injection hu with h2
                omega
              · exact hmin e he s' u hs' hu hltu
            · intro n tn hn htn
              subst hn
              have hb := hcond.2
              simp only [betterBool, htn] at hb
              have : a < tn := by simpa using hb
              omega
          · rw [if_neg hcond] at hr
            obtain ⟨horig, t, hpt, hlt, hmin, haccmin⟩ := ih acc hacc r hr
            refine ⟨?_, t, hpt, hlt, ?_, haccmin⟩
            · rcases horig with h | ⟨e, he, h1, h2, h3⟩
              · exact Or.inl h
              · exact Or.inr ⟨e, List.mem_cons_of_mem ep he, h1, h2, h3⟩
            · intro e he s' u hs' hu hltu
              rcases List.mem_cons.mp he with rfl | he
              · rw [ha] at hs'
                injection hs' with h1
                subst h1
                rw [hp] at hu
                injection hu with h2
                subst h2
                cases haccc : acc with
                | none =>
                  exact absurd ⟨hltu, by rw [haccc]; rfl⟩ hcond
                | some n =>
                  obtain ⟨tn, htn, -⟩ := hacc n haccc
                  have hble : betterBool parse a acc = false := by
                    cases hb : betterBool parse a acc with
                    | false => rfl
                    | true => exact absurd ⟨hltu, hb⟩ hcond
                  rw [haccc] at hble
                  simp only [betterBool, htn] at hble
                  have hnlt : ¬ a < tn := by simpa using hble
                  have h1 : t ≤ tn := haccmin n tn haccc htn
                  omega
              · exact hmin e he s' u hs' hu hltu

/-- C2: next-episode selection.  `computeNextEpisode` returns none exactly
when no episode has a parsable airstamp strictly after `now` (episodes with
a missing or unparsable airstamp are ignored); when it returns an episode,
that episode comes from the input, its airstamp parses to a time strictly
after `now`, and that time is the earliest among all episodes airing
strictly after `now`. -/
theorem computeNextEpisode_selection :
    ∀ (parse : String → Option Int) (now : Int) (eps : List Episode),
      parse "" = none →
      ((computeNextEpisode parse now eps = none ↔
        ∀ ep ∈ eps, ¬ ∃ s t, ep.airstamp = some s ∧ parse s = some t ∧
          now < t) ∧
       (∀ r, computeNextEpisode parse now eps = some r →
         (∃ ep ∈ eps, ep.airstamp = some r.airstamp ∧ ep.season = r.season ∧
           ep.number = r.number) ∧
         ∃ t, parse r.airstamp = some t ∧ now < t ∧
           ∀ ep ∈ eps, ∀ s u, ep.airstamp = some s → parse s = some u →
             now < u → t ≤ u)) := by
  intro parse now eps hE
  constructor
  · rw [computeNextEpisode,
      computeNextEpisodeGo_eq_none_iff parse now hE eps none]
    simp [qualifies]
  · intro r hr
    obtain ⟨horig, t, hpt, hlt, hmin, -⟩ :=
      computeNextEpisodeGo_some_spec parse now hE eps none
        (by intro n hn; cases hn) r hr
    refine ⟨?_, t, hpt, hlt, hmin⟩
    rcases horig with h | h
    · cases h
    · exact h

/-- Parse oracle for the C2 witness: `"past"` is one day before `now = 0`,
`"p2d"` two days after, `"p5h"` five hours after; everything else
(including `"invalid"`) fails to parse. -/
def parseEps : String → Option Int
  | "past" => some (-86400000)
  | "p2d" => some 172800000
  | "p5h" => some 18000000
  | _ => none

/-- Episode list for the C2 witness. -/
def epList : List Episode :=
  [⟨1, 1, some "past"⟩, ⟨1, 2, some "p2d"⟩, ⟨1, 3, some "p5h"⟩,
    ⟨1, 4, some "invalid"⟩]

/-- Witness for C2: among now−1d, now+2d, now+5h and an invalid timestamp,
the now+5h episode is selected, and the theorem's minimality bound applies
to the now+2d episode. -/
theorem computeNextEpisode_selection_witness :
    computeNextEpisode parseEps 0 epList = some ⟨1, 3, "p5h"⟩ ∧
    parseEps "p5h" = some 18000000 ∧ (0 : Int) < 18000000 ∧
    (18000000 : Int) ≤ 172800000 := by
  have h := (computeNextEpisode_selection parseEps 0 epList rfl).2
    ⟨1, 3, "p5h"⟩ (by decide)
  obtain ⟨-, t, hpt, hlt, hmin⟩ := h
  have ht : t = 18000000 := by
    rw [show parseEps "p5h" = some 18000000 from rfl] at hpt
    injection hpt with h'
    omega
  subst ht
  exact ⟨by decide, rfl, by decide,
    hmin ⟨1, 2, some "p2d"⟩ (by decide) "p2d" 172800000 rfl rfl (by decide)⟩
